import Mathlib

/-!
Verification development for the ImageBabble header-only library
(`inc/imagebabble.hpp`): a shallow embedding of its frame codec, the
reliable-publish quorum loop and the discovery directory, together with
theorems settling the specification's claims about them.

All scalar wire fields are whitespace-delimited textual tokens produced by
`std::ostream` and consumed by `std::istream`; we model those streams
explicitly over `List Char`.
-/

namespace ImageBabble

/-! ### Textual tokens: the `std::ostream` / `std::istream` model -/

/-- Whitespace characters recognised by `std::isspace` in the default locale. -/
def isWsChar (c : Char) : Bool :=
  c == ' ' || c == '\t' || c == '\n' || c == '\x0b' || c == '\x0c' || c == '\r'

/-- Decimal digit test, as used by `num_get` when parsing integers. -/
def isDigitChar (c : Char) : Bool :=
  decide ('0' ≤ c) && decide (c ≤ '9')

/-- The decimal digit character for a value `0..9` (other inputs unused). -/
def digitChar : Nat → Char
  | 0 => '0' | 1 => '1' | 2 => '2' | 3 => '3' | 4 => '4'
  | 5 => '5' | 6 => '6' | 7 => '7' | 8 => '8' | _ => '9'

/-- Numeric value of a decimal digit character. -/
def digitVal (c : Char) : Nat := c.toNat - 48

/-- Decimal digits of `n`, most significant first; `fuel` bounds the recursion
depth (any `fuel > n` is enough). -/
def natDigitsAux : Nat → Nat → List Char
  | 0, _ => []
  | fuel + 1, n =>
    if n < 10 then [digitChar n]
    else natDigitsAux fuel (n / 10) ++ [digitChar (n % 10)]

/-- Decimal digits of `n`, most significant first, as `operator<<` prints them. -/
def natDigits (n : Nat) : List Char := natDigitsAux (n + 1) n

/-- Value of a list of decimal digit characters. -/
def digitsToNat (l : List Char) : Nat :=
  l.foldl (fun a c => 10 * a + digitVal c) 0

/-- Decimal rendering of an `int` value, as `operator<<` prints it. -/
def intRepr (i : Int) : List Char :=
  if i < 0 then '-' :: natDigits i.natAbs else natDigits i.toNat

/-- State of a `std::istream` over an in-memory buffer: remaining characters
plus the failbit (once set, further extractions are no-ops). -/
structure cppIs where
  chars : List Char
  failed : Bool
deriving DecidableEq

/-- Core of integer extraction after whitespace skipping: optional sign then a
maximal run of decimal digits.  Returns value, rest and a success flag. -/
def readIntSigned (l : List Char) : Int × List Char × Bool :=
  match l with
  | [] => (0, [], false)
  | c :: rest =>
    if c = '-' then
      let ds := rest.takeWhile isDigitChar
      let r := rest.dropWhile isDigitChar
      if ds = [] then (0, r, false) else (-(digitsToNat ds : Int), r, true)
    else if c = '+' then
      let ds := rest.takeWhile isDigitChar
      let r := rest.dropWhile isDigitChar
      if ds = [] then (0, r, false) else ((digitsToNat ds : Int), r, true)
    else
      let ds := (c :: rest).takeWhile isDigitChar
      let r := (c :: rest).dropWhile isDigitChar
      if ds = [] then (0, r, false) else ((digitsToNat ds : Int), r, true)

/-- `is >> (int&)`: skip whitespace, parse an optionally signed decimal number;
on failure the value is `0` and the failbit is set (C++11 semantics). -/
def readInt (s : cppIs) : Int × cppIs :=
  if s.failed then (0, s)
  else
    let l := s.chars.dropWhile isWsChar
    let r := readIntSigned l
    (r.1, ⟨r.2.1, !r.2.2⟩)

/-- `is >> (std::string&)`: skip whitespace, read one maximal non-whitespace
token; reaching end-of-input first sets the failbit and leaves the string
empty. -/
def readStr (s : cppIs) : String × cppIs :=
  if s.failed then ("", s)
  else
    let l := s.chars.dropWhile isWsChar
    let tok := l.takeWhile (fun c => !isWsChar c)
    let r := l.dropWhile (fun c => !isWsChar c)
    if tok = [] then ("", ⟨r, true⟩) else (String.mk tok, ⟨r, false⟩)

/-- `is >> (size_t&)` on a lone part: skip whitespace, parse decimal digits;
parse failure yields `0` (the receive code ignores the parse outcome, so only
the value matters here). -/
def parseCount (s : String) : Nat :=
  let l := s.data.dropWhile isWsChar
  digitsToNat (l.takeWhile isDigitChar)

/-- Token is free of whitespace characters (a `>>`-round-trippable string). -/
def wsFree (s : String) : Bool := s.data.all (fun c => !isWsChar c)

/-! ### Digit lemmas -/

theorem digitChar_isDigit : ∀ d, d < 10 → isDigitChar (digitChar d) = true := by decide

theorem digitVal_digitChar : ∀ d, d < 10 → digitVal (digitChar d) = d := by decide

theorem not_ws_of_digit {c : Char} (h : isDigitChar c = true) : isWsChar c = false := by
  by_contra h2
  have hws : isWsChar c = true := by
    cases hb : isWsChar c with
    | false => exact absurd hb h2
    | true => rfl
  simp only [isWsChar, Bool.or_eq_true, beq_iff_eq] at hws
  rcases hws with ((((h1 | h1) | h1) | h1) | h1) | h1 <;> subst h1 <;>
    exact absurd h (by decide)

theorem digit_ne_dash {c : Char} (h : isDigitChar c = true) : c ≠ '-' := by
  intro he; subst he; exact absurd h (by decide)

theorem digit_ne_plus {c : Char} (h : isDigitChar c = true) : c ≠ '+' := by
  intro he; subst he; exact absurd h (by decide)

theorem natDigitsAux_ne_nil {fuel n : Nat} (h : n < fuel) : natDigitsAux fuel n ≠ [] := by
  cases fuel with
  | zero => omega
  | succ f =>
    simp only [natDigitsAux]
    split
    · simp
    · simp

theorem natDigitsAux_digits {fuel : Nat} :
    ∀ {n : Nat}, n < fuel → ∀ c ∈ natDigitsAux fuel n, isDigitChar c = true := by
  induction fuel with
  | zero => intro n h; omega
  | succ f ih =>
    intro n hn c hc
    simp only [natDigitsAux] at hc
    split at hc
    · rename_i h10
      simp at hc
      subst hc
      exact digitChar_isDigit n h10
    · rename_i h10
      rw [List.mem_append] at hc
      rcases hc with hc | hc
      · have hdiv : n / 10 < n := Nat.div_lt_self (by omega) (by omega)
        exact ih (by omega) c hc
      · simp at hc
        subst hc
        exact digitChar_isDigit _ (Nat.mod_lt _ (by omega))

theorem natDigits_ne_nil (n : Nat) : natDigits n ≠ [] :=
  natDigitsAux_ne_nil (Nat.lt_succ_self n)

theorem natDigits_digits (n : Nat) : ∀ c ∈ natDigits n, isDigitChar c = true :=
  natDigitsAux_digits (Nat.lt_succ_self n)

theorem digitsToNat_append (l : List Char) (c : Char) :
    digitsToNat (l ++ [c]) = 10 * digitsToNat l + digitVal c := by
  simp [digitsToNat, List.foldl_append]

theorem natDigitsAux_val {fuel : Nat} :
    ∀ {n : Nat}, n < fuel → digitsToNat (natDigitsAux fuel n) = n := by
  induction fuel with
  | zero => intro n h; omega
  | succ f ih =>
    intro n hn
    simp only [natDigitsAux]
    split
    · rename_i h10
      simp [digitsToNat, digitVal_digitChar n h10]
    · rename_i h10
      rw [digitsToNat_append]
      have hdiv : n / 10 < n := Nat.div_lt_self (by omega) (by omega)
      rw [ih (by omega), digitVal_digitChar _ (Nat.mod_lt _ (by omega))]
      omega

theorem digitsToNat_natDigits (n : Nat) : digitsToNat (natDigits n) = n :=
  natDigitsAux_val (Nat.lt_succ_self n)

/-! ### takeWhile / dropWhile splitting lemmas -/

/-- The head of `r` (if any) fails the predicate `p`. -/
def headFails (p : Char → Bool) (r : List Char) : Prop :=
  ∀ c, r.head? = some c → p c = false

theorem takeWhile_eq_nil_of_headFails {p : Char → Bool} {r : List Char}
    (hr : headFails p r) : r.takeWhile p = [] := by
  cases r with
  | nil => rfl
  | cons c cs =>
    have := hr c rfl
    simp [List.takeWhile, this]

theorem dropWhile_eq_self_of_headFails {p : Char → Bool} {r : List Char}
    (hr : headFails p r) : r.dropWhile p = r := by
  cases r with
  | nil => rfl
  | cons c cs =>
    have := hr c rfl
    simp [List.dropWhile, this]

theorem takeWhile_append_sat {p : Char → Bool} {l r : List Char}
    (hl : ∀ c ∈ l, p c = true) (hr : headFails p r) :
    (l ++ r).takeWhile p = l := by
  induction l with
  | nil => exact takeWhile_eq_nil_of_headFails hr
  | cons c cs ih =>
    have hc := hl c (List.mem_cons_self _ _)
    simp only [List.cons_append, List.takeWhile, hc]
    show c :: List.takeWhile p (cs ++ r) = c :: cs
    rw [ih (fun d hd => hl d (List.mem_cons_of_mem _ hd))]

theorem dropWhile_append_sat {p : Char → Bool} {l r : List Char}
    (hl : ∀ c ∈ l, p c = true) (hr : headFails p r) :
    (l ++ r).dropWhile p = r := by
  induction l with
  | nil => exact dropWhile_eq_self_of_headFails hr
  | cons c cs ih =>
    have hc := hl c (List.mem_cons_self _ _)
    simp only [List.cons_append, List.dropWhile, hc]
    exact ih (fun d hd => hl d (List.mem_cons_of_mem _ hd))

theorem headFails_cons {p : Char → Bool} {a : Char} (h : p a = false) (l : List Char) :
    headFails p (a :: l) := by
  intro c hc
  simp at hc
  subst hc
  exact h

theorem headFails_nil (p : Char → Bool) : headFails p [] := by
  intro c hc
  simp at hc

theorem head?_append_ne_nil {l r : List Char} (h : l ≠ []) : (l ++ r).head? = l.head? := by
  cases l with
  | nil => exact absurd rfl h
  | cons a t => rfl

theorem data_mk (l : List Char) : (String.mk l).data = l := rfl

theorem mk_data (s : String) : String.mk s.data = s := rfl

/-! ### Integer / token extraction round trips -/

theorem head?_mem {l : List Char} {c : Char} (h : l.head? = some c) : c ∈ l := by
  cases l with
  | nil => simp at h
  | cons a t =>
    simp at h
    subst h
    exact List.mem_cons_self _ _

theorem headFails_ws_of_digits {l : List Char} (r : List Char) (hne : l ≠ [])
    (hl : ∀ c ∈ l, isDigitChar c = true) : headFails isWsChar (l ++ r) := by
  intro c hc
  rw [head?_append_ne_nil hne] at hc
  exact not_ws_of_digit (hl c (head?_mem hc))

theorem readIntSigned_all_digits {l : List Char} (r : List Char) (hne : l ≠ [])
    (hl : ∀ c ∈ l, isDigitChar c = true) (hr : headFails isDigitChar r) :
    readIntSigned (l ++ r) = ((digitsToNat l : Int), r, true) := by
  cases l with
  | nil => exact absurd rfl hne
  | cons c tail =>
    have hcd : isDigitChar c = true := hl c (List.mem_cons_self _ _)
    have htake : List.takeWhile isDigitChar (c :: (tail ++ r)) = c :: tail := by
      rw [← List.cons_append]
      exact takeWhile_append_sat hl hr
    have hdrop : List.dropWhile isDigitChar (c :: (tail ++ r)) = r := by
      rw [← List.cons_append]
      exact dropWhile_append_sat hl hr
    rw [List.cons_append]
    simp only [readIntSigned, if_neg (digit_ne_dash hcd), if_neg (digit_ne_plus hcd),
      htake, hdrop]
    rw [if_neg (by simp : ¬(c :: tail = []))]

theorem readIntSigned_intRepr (i : Int) (r : List Char) (hr : headFails isDigitChar r) :
    readIntSigned (intRepr i ++ r) = (i, r, true) := by
  by_cases hi : i < 0
  · simp only [intRepr, if_pos hi, List.cons_append]
    have htake : List.takeWhile isDigitChar (natDigits i.natAbs ++ r) = natDigits i.natAbs :=
      takeWhile_append_sat (natDigits_digits _) hr
    have hdrop : List.dropWhile isDigitChar (natDigits i.natAbs ++ r) = r :=
      dropWhile_append_sat (natDigits_digits _) hr
    simp only [readIntSigned, if_pos rfl, htake, hdrop, if_neg (natDigits_ne_nil i.natAbs),
      digitsToNat_natDigits]
    have : -((i.natAbs : Nat) : Int) = i := by omega
    rw [this, if_pos trivial]
  · simp only [intRepr, if_neg hi]
    rw [readIntSigned_all_digits r (natDigits_ne_nil _) (natDigits_digits _) hr,
      digitsToNat_natDigits]
    have : ((i.toNat : Nat) : Int) = i := by omega
    rw [this]

theorem intRepr_head_not_ws (i : Int) (r : List Char) :
    headFails isWsChar (intRepr i ++ r) := by
  by_cases hi : i < 0
  · simp only [intRepr, if_pos hi, List.cons_append]
    exact headFails_cons (by decide) _
  · simp only [intRepr, if_neg hi]
    exact headFails_ws_of_digits r (natDigits_ne_nil _) (natDigits_digits _)

theorem dropWhile_ws_sp (l : List Char) :
    (' ' :: l).dropWhile isWsChar = l.dropWhile isWsChar := by
  have h : isWsChar ' ' = true := by decide
  rw [List.dropWhile_cons_of_pos h]

theorem readInt_exact (i : Int) (r : List Char) (hr : headFails isDigitChar r) :
    readInt ⟨intRepr i ++ r, false⟩ = (i, ⟨r, false⟩) := by
  simp only [readInt, Bool.false_eq_true, if_neg]
  rw [dropWhile_eq_self_of_headFails (intRepr_head_not_ws i r),
    readIntSigned_intRepr i r hr]
  rfl

theorem readInt_sp (i : Int) (r : List Char) (hr : headFails isDigitChar r) :
    readInt ⟨' ' :: (intRepr i ++ r), false⟩ = (i, ⟨r, false⟩) := by
  simp only [readInt, Bool.false_eq_true, if_neg]
  rw [dropWhile_ws_sp, dropWhile_eq_self_of_headFails (intRepr_head_not_ws i r),
    readIntSigned_intRepr i r hr]
  rfl

theorem wsFree_not_ws {s : String} (hw : wsFree s = true) :
    ∀ c ∈ s.data, (fun c => !isWsChar c) c = true := by
  intro c hc
  simp only [wsFree, List.all_eq_true] at hw
  exact hw c hc

theorem headFails_ws_of_wsFree {n : String} (r : List Char) (hne : n.data ≠ [])
    (hw : wsFree n = true) : headFails isWsChar (n.data ++ r) := by
  intro c hc
  rw [head?_append_ne_nil hne] at hc
  have := wsFree_not_ws hw c (head?_mem hc)
  simp at this
  exact this

theorem readStr_tok (n : String) (r : List Char) (hne : n.data ≠ [])
    (hw : wsFree n = true) (hr : headFails (fun c => !isWsChar c) r) :
    readStr ⟨n.data ++ r, false⟩ = (n, ⟨r, false⟩) := by
  simp only [readStr, Bool.false_eq_true, if_neg]
  rw [dropWhile_eq_self_of_headFails (headFails_ws_of_wsFree r hne hw),
    takeWhile_append_sat (wsFree_not_ws hw) hr,
    dropWhile_append_sat (wsFree_not_ws hw) hr,
    if_neg hne]
  rfl

theorem readStr_sp_tok (n : String) (r : List Char) (hne : n.data ≠ [])
    (hw : wsFree n = true) (hr : headFails (fun c => !isWsChar c) r) :
    readStr ⟨' ' :: (n.data ++ r), false⟩ = (n, ⟨r, false⟩) := by
  have step : readStr ⟨' ' :: (n.data ++ r), false⟩ = readStr ⟨n.data ++ r, false⟩ := by
    simp only [readStr, Bool.false_eq_true, if_neg]
    rw [dropWhile_ws_sp]
    rfl
  rw [step, readStr_tok n r hne hw hr]

theorem readStr_name (n : String) (hw : wsFree n = true) :
    (readStr ⟨' ' :: n.data, false⟩).1 = n := by
  by_cases hne : n.data = []
  · cases n with
    | mk d =>
      have hd : d = [] := hne
      subst hd
      rfl
  · rw [show ' ' :: n.data = ' ' :: (n.data ++ []) by simp,
      readStr_sp_tok n [] hne hw (headFails_nil _)]

theorem parseCount_natDigits (n : Nat) : parseCount (String.mk (natDigits n)) = n := by
  simp only [parseCount, data_mk]
  rw [show natDigits n = natDigits n ++ [] by simp] at *
  rw [dropWhile_eq_self_of_headFails (headFails_ws_of_digits [] (natDigits_ne_nil n) (natDigits_digits n)),
    takeWhile_append_sat (natDigits_digits n) (headFails_nil _)]
  exact digitsToNat_natDigits n
/-! ### Data model (`image_header`, `image_data`, `frame`, `frame_options`) -/

/-- `image_header`: width, height, channels, bytes per channel (C++ `int`),
plus a name. -/
structure image_header where
  width : Int
  height : Int
  channels : Int
  bytes_per_channel : Int
  name : String
deriving DecidableEq

/-- `image_data`: the byte content of the underlying message, plus the
`_pre_allocated` flag set when the buffer wraps caller-supplied memory. -/
structure image_data where
  bytes : List Nat
  pre_allocated : Bool
deriving DecidableEq

/-- `frame`: ordered headers, ordered data buffers, and one user-data string. -/
structure frame where
  headers : List image_header
  data : List image_data
  user_data : String
deriving DecidableEq

/-- `frame_options`: the three independent skip switches. -/
structure frame_options where
  skip_headers : Bool
  skip_data : Bool
  skip_user_data : Bool
deriving DecidableEq

/-- The default-constructed `frame_options`: nothing skipped. -/
def defaultOpts : frame_options := ⟨false, false, false⟩

/-- A default-constructed `frame`, the usual receive destination. -/
def frame0 : frame := ⟨[], [], ""⟩

/-- `operator<<(ostream, image_header)`: the five fields separated by single
spaces, name last. -/
def renderHeader (h : image_header) : List Char :=
  intRepr h.width ++ (' ' :: (intRepr h.height ++ (' ' :: (intRepr h.channels ++
    (' ' :: (intRepr h.bytes_per_channel ++ (' ' :: h.name.data)))))))

/-- `operator>>(istream, image_header)`: four `int` extractions followed by one
token extraction for the name. -/
def parseHeader (s : String) : image_header :=
  let r1 := readInt ⟨s.data, false⟩
  let r2 := readInt r1.2
  let r3 := readInt r2.2
  let r4 := readInt r3.2
  let r5 := readStr r4.2
  ⟨r1.1, r2.1, r3.1, r4.1, r5.1⟩

/-! ### The wire: ZMQ message parts -/

/-- One ZMQ message part: either character data (all textual fields, strings
and the empty delimiter) or the raw bytes of an image buffer. -/
inductive wirePart where
  | text : String → wirePart
  | raw : List Nat → wirePart
deriving DecidableEq

/-- Bytes of a part reinterpreted as characters (what `recv` into a
`std::string` or an `istream` sees). -/
def partAsString : wirePart → String
  | .text s => s
  | .raw bs => String.mk (bs.map Char.ofNat)

/-- Bytes of a part (what a receive into an `image_data` buffer sees). -/
def partAsBytes : wirePart → List Nat
  | .text s => s.data.map Char.toNat
  | .raw bs => bs

/-! ### Sending (`zmq_ext::send`, `send_array`, frame `send`) -/

/-- `zmq_ext::send_array`: a textual count part `min(c.size, max_elems)`
followed by that many element parts; when the caller did not pass
`ZMQ_SNDMORE` a trailing empty part is appended. -/
def sendArray {γ : Type} (render : γ → wirePart) (c : List γ) (maxElems : Nat)
    (sndmore : Bool) : List wirePart :=
  let n := min c.length maxElems
  (wirePart.text (String.mk (natDigits n)) :: (c.take n).map render) ++
    (if sndmore then [] else [wirePart.text ""])

/-- `zmq_ext::send(socket, frame_options, frame)`: user-data part (empty when
skipped), header array with `max = skip ? 0 : size`, data array likewise, then
the empty delimiter part.  All parts of one frame form one atomic multipart
message. -/
def sendFrame (o : frame_options) (f : frame) : List wirePart :=
  (if o.skip_user_data then wirePart.text "" else wirePart.text f.user_data) ::
  (sendArray (fun h => wirePart.text (String.mk (renderHeader h))) f.headers
      (if o.skip_headers then 0 else f.headers.length) true ++
    (sendArray (fun d => wirePart.raw d.bytes) f.data
        (if o.skip_data then 0 else f.data.length) true ++
      [wirePart.text ""]))

/-! ### Receiving (`zmq_ext::recv`, `recv_array`, frame `recv`)

`zmq::socket_t::recv` without flags is a blocking call: it returns `true`
whenever a part is available and otherwise waits forever.  A part stream that
ends before the decode has read all the parts it asks for therefore never
returns; we model that outcome as `none`. -/

/-- Receive `n` parts in order (used for the element loop and the drain loop of
`recv_array`); `none` when the stream runs out (a blocked `recv`). -/
def recvParts : Nat → List wirePart → Option (List wirePart × List wirePart)
  | 0, ps => some ([], ps)
  | _ + 1, [] => none
  | n + 1, p :: ps =>
    match recvParts n ps with
    | none => none
    | some (t, r) => some (p :: t, r)

/-- `min(count, max_elems)` where `max_elems = none` stands for
`numeric_limits<size_t>::max()` (no effective bound). -/
def fitOf (maxElems : Option Nat) (count : Nat) : Nat :=
  match maxElems with
  | none => count
  | some m => min count m

/-- `zmq_ext::recv_array` for `image_header` elements: read the count part,
resize to `fit = min(count, max_elems)`, parse `fit` element parts, then drain
the `count - fit` parts that do not fit.  Each single `recv` returns `true`
when a part is present, so the `all_ok` flag of this phase is `true` whenever
the call returns at all. -/
def recvHeaderArray (maxElems : Option Nat) (ps : List wirePart) :
    Option (List image_header × Bool × List wirePart) :=
  match ps with
  | [] => none
  | cp :: rest =>
    let count := parseCount (partAsString cp)
    let fit := fitOf maxElems count
    match recvParts fit rest with
    | none => none
    | some (eps, rest2) =>
      match recvParts (count - fit) rest2 with
      | none => none
      | some (_, rest3) =>
        some (eps.map (fun p => parseHeader (partAsString p)), true, rest3)

/-- `zmq_ext::recv(socket, image_data)`: a pre-allocated destination receives
via `zmq_recv`, which truncates the copy to the capacity but returns the full
message size, so the result is `size <= capacity`; an owned destination adopts
the whole message. -/
def recvData (v : image_data) (p : wirePart) : image_data × Bool :=
  if v.pre_allocated then
    let payload := partAsBytes p
    let cap := v.bytes.length
    (⟨payload.take cap ++ v.bytes.drop (min payload.length cap), true⟩,
      decide (payload.length ≤ cap))
  else
    (⟨partAsBytes p, false⟩, true)

/-- The element loop of `recv_array` for `image_data`: receive one part into
each (already resized) destination element, accumulating `all_ok`. -/
def recvDataElems : List image_data → List wirePart →
    Option (List image_data × Bool × List wirePart)
  | [], ps => some ([], true, ps)
  | _ :: _, [] => none
  | d :: ds, p :: ps =>
    match recvDataElems ds ps with
    | none => none
    | some (res, ok2, rest) =>
      let r := recvData d p
      some (r.1 :: res, r.2 && ok2, rest)

/-- `zmq_ext::recv_array` for `image_data`: count, `resize(fit)` (keep existing
elements, default-construct the rest), element loop, drain loop. -/
def recvDataArray (maxElems : Option Nat) (dest : List image_data)
    (ps : List wirePart) : Option (List image_data × Bool × List wirePart) :=
  match ps with
  | [] => none
  | cp :: rest =>
    let count := parseCount (partAsString cp)
    let fit := fitOf maxElems count
    let dest' := dest.take fit ++ List.replicate (fit - dest.length) ⟨[], false⟩
    match recvDataElems dest' rest with
    | none => none
    | some (res, ok, rest2) =>
      match recvParts (count - fit) rest2 with
      | none => none
      | some (_, rest3) => some (res, ok, rest3)

/-- The first three phases of `zmq_ext::recv(socket, frame_options, frame)`:
user data (or drop), header array with `max = skip ? 0 : SIZE_MAX`, data array
likewise.  The destination frame `f` supplies the prior user data (kept when
skipped) and the prior data vector (consulted by `resize`). -/
def recvFrameBody (o : frame_options) (f : frame) (ps : List wirePart) :
    Option (frame × Bool × List wirePart) :=
  match ps with
  | [] => none
  | udp :: ps1 =>
    let ud := if o.skip_user_data then f.user_data else partAsString udp
    match recvHeaderArray (if o.skip_headers then some 0 else none) ps1 with
    | none => none
    | some (hs, okh, ps2) =>
      match recvDataArray (if o.skip_data then some 0 else none) f.data ps2 with
      | none => none
      | some (ds, okd, ps3) => some (⟨hs, ds, ud⟩, true && okh && okd, ps3)

/-- `zmq_ext::recv(socket, frame_options, frame)`: the body phases followed by
one receive of the delimiter part whose result is discarded (source line 615
does not fold it into `all_ok`). -/
def recvFrame (o : frame_options) (f : frame) (ps : List wirePart) :
    Option (frame × Bool × List wirePart) :=
  match recvFrameBody o f ps with
  | none => none
  | some (g, ok, rest) =>
    match rest with
    | [] => none
    | _ :: rest' => some (g, ok, rest')

/-! ### Reliable publish (`reliable_image_server::publish`) -/

/-- One iteration of the quorum-wait loop, as seen from outside: the endpoint
identities whose ready messages were drained by the inner
`while (can_read)` loop, and the `timer::elapsed_msecs()` reading taken
afterwards (non-negative). -/
structure pollRound where
  readies : List String
  elapsed : Nat
deriving DecidableEq

/-- `std::hash_set<std::string>::insert`: deduplicating insert by identity. -/
def insertClient (cs : List String) (id : String) : List String :=
  if id ∈ cs then cs else cs ++ [id]

/-- Insert every drained identity of one poll round. -/
def insertAll (cs : List String) (ids : List String) : List String :=
  ids.foldl insertClient cs

/-- The `do { ... } while (clients.size() < min_serve && continue_wait)` loop:
`continue_wait = (timeout == -1 || elapsed_msecs() < timeout)`.  The trace of
poll rounds stands for the environment; `none` means the supplied trace ended
while the loop was still waiting. -/
def publishWait : Int → Nat → List String → List pollRound → Option (List String)
  | _, _, _, [] => none
  | timeout, minServe, cs, r :: rest =>
    let cs' := insertAll cs r.readies
    if cs'.length < minServe ∧ (timeout = -1 ∨ (r.elapsed : Int) < timeout) then
      publishWait timeout minServe cs' rest
    else some cs'

/-- `reliable_image_server::publish`: run the quorum-wait loop from an empty
client set; on exit, if `clients.size() >= min_serve` send the frame to every
collected identity and return `true`, otherwise send to nobody and return
`false`.  The result carries the success flag and the list of identities the
frame was sent to. -/
def publishReliable (timeout : Int) (minServe : Nat) (rounds : List pollRound) :
    Option (Bool × List String) :=
  (publishWait timeout minServe [] rounds).map
    (fun cs => if minServe ≤ cs.length then (true, cs) else (false, []))

/-! ### Discovery directory (`discovery_server`) -/

/-- `IMAGEBABBLE_DISCOVERY_PROTO_VERSION`. -/
def discoveryProtoVersion : String := "1"

/-- `discovery_info`: name, address, protocol version, protocol kind (the
`e_protocol` enumerator transmitted as its integer value). -/
structure discovery_info where
  name : String
  addr : String
  version : String
  proto : Int
deriving DecidableEq

/-- `operator<<(ostream, discovery_info)`: name, address, version,
protocol-kind-as-int, space separated. -/
def renderInfo (d : discovery_info) : List Char :=
  d.name.data ++ (' ' :: (d.addr.data ++ (' ' :: (d.version.data ++
    (' ' :: intRepr d.proto)))))

/-- `operator>>(istream, discovery_info)`: three token extractions then one
`int` extraction. -/
def parseInfo (s : String) : discovery_info :=
  let r1 := readStr ⟨s.data, false⟩
  let r2 := readStr r1.2
  let r3 := readStr r2.2
  let r4 := readInt r3.2
  ⟨r1.1, r2.1, r3.1, r4.1⟩

/-- `discovery_server::discover_servers`: keep every registered entry whose
name, protocol kind and protocol version equal the query's (the address is
never compared). -/
def discover_servers (di : discovery_info) (servers : List discovery_info) :
    List discovery_info :=
  servers.filter (fun x =>
    decide (di.name = x.name) && decide (di.proto = x.proto) &&
      decide (di.version = x.version))

/-- `discovery_server::register_server`: append unconditionally, reply `true`. -/
def register_server (di : discovery_info) (servers : List discovery_info) :
    Bool × List discovery_info :=
  (true, servers ++ [di])

/-- `discovery_server::unregister_server`: erase every entry with the payload's
address, reply `true` unconditionally. -/
def unregister_server (di : discovery_info) (servers : List discovery_info) :
    Bool × List discovery_info :=
  (true, servers.filter (fun x => !decide (x.addr = di.addr)))

/-- `operator<<(ostream, bool)` with default formatting. -/
def boolStr (b : Bool) : String := if b then "1" else "0"

/-- `discovery_server::process_events`: drain all pending requests.  Each
iteration receives the identity part and the version part; on a version match
it also receives the request-kind and entry parts and dispatches, otherwise it
loops immediately.  The result is the final registry and the concatenation of
all reply parts sent; `none` marks a blocking receive on an exhausted stream. -/
def processLoop : List discovery_info → List wirePart → List wirePart →
    Option (List discovery_info × List wirePart)
  | reg, sent, [] => some (reg, sent)
  | _, _, [_] => none
  | reg, sent, idp :: vp :: rest =>
    if partAsString vp = discoveryProtoVersion then
      match rest with
      | [] => none
      | [_] => none
      | reqp :: ep :: rest2 =>
        let id := partAsString idp
        let req := partAsString reqp
        let di := parseInfo (partAsString ep)
        if req = "register" then
          processLoop (register_server di reg).2
            (sent ++ [wirePart.text id, wirePart.text (boolStr (register_server di reg).1)])
            rest2
        else if req = "find" then
          let results := discover_servers di reg
          processLoop reg
            (sent ++ wirePart.text id ::
              wirePart.text (boolStr (!results.isEmpty)) ::
                sendArray (fun d => wirePart.text (String.mk (renderInfo d)))
                  results results.length false)
            rest2
        else if req = "unregister" then
          processLoop (unregister_server di reg).2
            (sent ++ [wirePart.text id, wirePart.text (boolStr (unregister_server di reg).1)])
            rest2
        else
          processLoop reg sent rest2
    else
      processLoop reg sent rest

/-- The two receives at the head of each `process_events` iteration: the
identity part and the version part of what the server takes to be the next
request. -/
def readIdVer : List wirePart → Option (String × String)
  | idp :: vp :: _ => some (partAsString idp, partAsString vp)
  | _ => none

/-! ### Lemmas about the quorum-wait loop -/

/-- All identities drained during a list of poll rounds, in order. -/
def allReadies (rounds : List pollRound) : List String :=
  rounds.foldr (fun r acc => r.readies ++ acc) []

theorem allReadies_cons (r : pollRound) (rest : List pollRound) :
    allReadies (r :: rest) = r.readies ++ allReadies rest := rfl

theorem insertAll_append (cs : List String) (a b : List String) :
    insertAll cs (a ++ b) = insertAll (insertAll cs a) b := by
  simp [insertAll, List.foldl_append]

theorem mem_insertClient {cs : List String} {x i : String} :
    i ∈ insertClient cs x ↔ i ∈ cs ∨ i = x := by
  unfold insertClient
  split
  · rename_i hx
    constructor
    · exact fun h => Or.inl h
    · rintro (h | h)
      · exact h
      · rw [h]; exact hx
  · simp

theorem mem_insertAll (ids : List String) :
    ∀ (cs : List String) (i : String), i ∈ insertAll cs ids ↔ i ∈ cs ∨ i ∈ ids := by
  induction ids with
  | nil => intro cs i; simp [insertAll]
  | cons x xs ih =>
    intro cs i
    have : insertAll cs (x :: xs) = insertAll (insertClient cs x) xs := rfl
    rw [this, ih, mem_insertClient]
    simp
    tauto

theorem nodup_insertClient {cs : List String} {x : String} (h : cs.Nodup) :
    (insertClient cs x).Nodup := by
  unfold insertClient
  split
  · exact h
  · rename_i hx
    rw [List.nodup_append]
    exact ⟨h, List.nodup_singleton x, by simpa using hx⟩

theorem nodup_insertAll (ids : List String) :
    ∀ (cs : List String), cs.Nodup → (insertAll cs ids).Nodup := by
  induction ids with
  | nil => intro cs h; exact h
  | cons x xs ih =>
    intro cs h
    exact ih (insertClient cs x) (nodup_insertClient h)

theorem publishWait_split :
    ∀ (rounds : List pollRound) (t : Int) (m : Nat) (cs out : List String),
      publishWait t m cs rounds = some out →
      ∃ done todo, rounds = done ++ todo ∧ done ≠ [] ∧
        out = insertAll cs (allReadies done) := by
  intro rounds
  induction rounds with
  | nil => intro t m cs out h; simp [publishWait] at h
  | cons r rest ih =>
    intro t m cs out h
    simp only [publishWait] at h
    split at h
    · obtain ⟨d, td, hrest, hdne, hout⟩ := ih t m _ out h
      refine ⟨r :: d, td, by rw [hrest]; rfl, by simp, ?_⟩
      rw [hout, allReadies_cons, insertAll_append]
    · refine ⟨[r], rest, rfl, by simp, ?_⟩
      simp only [Option.some.injEq] at h
      rw [← h, allReadies_cons]
      simp [allReadies, insertAll]

/-- Claim C1: at quorum-loop exit, `publish` sends the frame to exactly the
identities recorded as ready during the executed rounds and returns success
iff their (deduplicated) count reached `min_serve`; on failure it sends to
no identity at all. -/
theorem claim1_reliable_publish_quorum (t : Int) (m : Nat) (rounds : List pollRound)
    (ok : Bool) (sent : List String)
    (h : publishReliable t m rounds = some (ok, sent)) :
    ∃ done todo, rounds = done ++ todo ∧
      ((ok = true) ↔ m ≤ (insertAll [] (allReadies done)).length) ∧
      (ok = true → sent = insertAll [] (allReadies done) ∧ sent.Nodup ∧
        ∀ i, i ∈ sent ↔ i ∈ allReadies done) ∧
      (ok = false → sent = []) := by
  unfold publishReliable at h
  cases hw : publishWait t m [] rounds with
  | none => rw [hw] at h; simp at h
  | some cs =>
    rw [hw] at h
    simp only [Option.map_some'] at h
    obtain ⟨done, todo, hr, _, hout⟩ := publishWait_split rounds t m [] cs hw
    by_cases hm : m ≤ cs.length
    · rw [if_pos hm] at h
      simp only [Option.some.injEq, Prod.mk.injEq] at h
      obtain ⟨hok, hsent⟩ := h
      refine ⟨done, todo, hr, ?_, ?_, ?_⟩
      · rw [← hok, ← hout]
        simp [hm]
      · intro _
        refine ⟨by rw [← hsent, hout], ?_, ?_⟩
        · rw [← hsent, hout]
          exact nodup_insertAll _ _ (List.nodup_nil)
        · intro i
          rw [← hsent, hout, mem_insertAll]
          simp
      · intro hfalse
        rw [← hok] at hfalse
        simp at hfalse
    · rw [if_neg hm] at h
      simp only [Option.some.injEq, Prod.mk.injEq] at h
      obtain ⟨hok, hsent⟩ := h
      refine ⟨done, todo, hr, ?_, ?_, ?_⟩
      · rw [← hok, ← hout]
        simp [hm]
      · intro htrue
        rw [← hok] at htrue
        simp at htrue
      · intro _
        exact hsent.symm

/-- Witness for C1 at a concrete trace: one round in which identity `a`
signals, `min_serve = 1`, `timeout = 0`. -/
theorem claim1_reliable_publish_quorum_w :
    ∃ done todo, ([⟨["a"], 0⟩] : List pollRound) = done ++ todo ∧
      ((true = true) ↔ 1 ≤ (insertAll [] (allReadies done)).length) ∧
      (true = true → ["a"] = insertAll [] (allReadies done) ∧ (["a"] : List String).Nodup ∧
        ∀ i, i ∈ (["a"] : List String) ↔ i ∈ allReadies done) ∧
      (true = false → (["a"] : List String) = []) :=
  claim1_reliable_publish_quorum 0 1 [⟨["a"], 0⟩] true ["a"] (by decide)

/-- Counterexample to claim C4 as stated: `-2` is a negative timeout, yet the
quorum loop exits after its first drain iteration (the code only treats `-1`
as infinite), so publish fails with one ready client and `min_ready = 2`
even though a second round was still available. -/
theorem claim4_ce :
    ((-2 : Int) < 0) ∧
      publishReliable (-2) 2 [⟨["a"], 0⟩, ⟨["b"], 0⟩] = some (false, []) := by
  constructor
  · decide
  · decide

theorem publishWait_neg_one (m : Nat) :
    ∀ (rounds : List pollRound) (acc out : List String),
      publishWait (-1) m acc rounds = some out → m ≤ out.length := by
  intro rounds
  induction rounds with
  | nil => intro acc out h; simp [publishWait] at h
  | cons r rest ih =>
    intro acc out h
    simp only [publishWait] at h
    split at h
    · exact ih _ _ h
    · rename_i hcond
      simp only [Option.some.injEq] at h
      rw [← h]
      by_contra hlt
      exact hcond ⟨by omega, Or.inl (by trivial)⟩

/-- Claim C4, amended: only `timeout = -1` waits indefinitely (such a publish
can only return success); any other negative timeout falsifies the wait
condition, so the loop exits right after its first drain iteration; for
non-negative timeouts the loop exits as soon as `elapsed_msecs() >= timeout`;
the collected identity set is deduplicated throughout. -/
theorem claim4_timeout :
    (∀ (m : Nat) (rounds : List pollRound) (ok : Bool) (sent : List String),
        publishReliable (-1) m rounds = some (ok, sent) → ok = true) ∧
    (∀ t : Int, t < -1 → ∀ (m : Nat) (r : pollRound) (rest : List pollRound),
        publishReliable t m (r :: rest) =
          some (if m ≤ (insertAll [] r.readies).length
                then (true, insertAll [] r.readies) else (false, []))) ∧
    (∀ t : Int, 0 ≤ t → ∀ (m : Nat) (cs : List String) (r : pollRound)
        (rest : List pollRound), t ≤ (r.elapsed : Int) →
        publishWait t m cs (r :: rest) = some (insertAll cs r.readies)) ∧
    (∀ (t : Int) (m : Nat) (cs : List String) (rounds : List pollRound)
        (out : List String), publishWait t m cs rounds = some out →
        cs.Nodup → out.Nodup) := by
  refine ⟨?_, ?_, ?_, ?_⟩
  · intro m rounds ok sent h
    unfold publishReliable at h
    cases hw : publishWait (-1) m [] rounds with
    | none => rw [hw] at h; simp at h
    | some cs =>
      rw [hw] at h
      simp only [Option.map_some'] at h
      have hexit : m ≤ cs.length := publishWait_neg_one m rounds [] cs hw
      rw [if_pos hexit] at h
      simp only [Option.some.injEq, Prod.mk.injEq] at h
      exact h.1.symm
  · intro t ht m r rest
    have hcond : ¬((insertAll [] r.readies).length < m ∧
        (t = -1 ∨ (r.elapsed : Int) < t)) := by
      rintro ⟨-, h1 | h2⟩
      · omega
      · omega
    unfold publishReliable
    simp only [publishWait, if_neg hcond, Option.map_some']
  · intro t ht m cs r rest he
    have hcond : ¬((insertAll cs r.readies).length < m ∧
        (t = -1 ∨ (r.elapsed : Int) < t)) := by
      rintro ⟨-, h1 | h2⟩
      · omega
      · omega
    simp only [publishWait, if_neg hcond]
  · intro t m cs rounds out h hnd
    induction rounds generalizing cs with
    | nil => simp [publishWait] at h
    | cons r rest ih =>
      simp only [publishWait] at h
      split at h
      · exact ih _ h (nodup_insertAll _ _ hnd)
      · simp only [Option.some.injEq] at h
        rw [← h]
        exact nodup_insertAll _ _ hnd

/-- Witness for the amended C4 at concrete inputs. -/
theorem claim4_timeout_w :
    (true = true) ∧
    (publishReliable (-3) 1 [⟨["b"], 5⟩] = some (true, ["b"])) ∧
    (publishWait 7 5 [] [⟨["c"], 9⟩] = some ["c"]) ∧
    (["c"] : List String).Nodup := by
  refine ⟨?_, ?_, ?_, ?_⟩
  · exact claim4_timeout.1 1 [⟨["a"], 0⟩] true ["a"] (by decide)
  · rw [claim4_timeout.2.1 (-3) (by decide) 1 ⟨["b"], 5⟩ []]
    decide
  · rw [claim4_timeout.2.2.1 7 (by decide) 5 [] ⟨["c"], 9⟩ [] (by decide)]
    decide
  · exact claim4_timeout.2.2.2 0 5 [] [⟨["c", "c"], 0⟩] ["c"] (by decide) (by decide)

/-! ### Lemmas about the discovery directory -/

theorem intRepr_ne_nil (i : Int) : intRepr i ≠ [] := by
  unfold intRepr
  split
  · simp
  · exact natDigits_ne_nil _

theorem renderInfo_ne_version (d : discovery_info) :
    String.mk (renderInfo d) ≠ discoveryProtoVersion := by
  intro h
  have hdata : renderInfo d = ['1'] := congrArg String.data h
  have hlen : (renderInfo d).length = 1 := by rw [hdata]; rfl
  have hpos : 0 < (intRepr d.proto).length :=
    List.length_pos.mpr (intRepr_ne_nil d.proto)
  simp only [renderInfo, List.length_append, List.length_cons] at hlen
  omega

theorem processLoop_mismatch (reg : List discovery_info) (sent : List wirePart)
    (idp vp : wirePart) (rest : List wirePart)
    (h : partAsString vp ≠ discoveryProtoVersion) :
    processLoop reg sent (idp :: vp :: rest) = processLoop reg sent rest := by
  rw [processLoop.eq_def]
  simp only [if_neg h]

/-- Claim C6: a request whose version part differs from the directory version
contributes nothing — processing the whole stream with such a request (its
four parts: identity, version, request kind, serialized entry) in front equals
processing the rest alone: no reply parts are emitted for it and the registry
is untouched. -/
theorem claim6_version_mismatch (reg : List discovery_info) (sent : List wirePart)
    (idp vp reqp : wirePart) (di : discovery_info) (rest : List wirePart)
    (h : partAsString vp ≠ discoveryProtoVersion) :
    processLoop reg sent
        (idp :: vp :: reqp :: wirePart.text (String.mk (renderInfo di)) :: rest) =
      processLoop reg sent rest := by
  rw [processLoop_mismatch reg sent idp vp _ h,
    processLoop_mismatch reg sent reqp _ rest
      (by simpa [partAsString] using renderInfo_ne_version di)]

/-- Witness for C6: a mismatched register request in front of an empty stream
leaves an empty reply stream and an empty registry. -/
theorem claim6_version_mismatch_w :
    processLoop [] []
        [wirePart.text "c", wirePart.text "2", wirePart.text "register",
          wirePart.text (String.mk (renderInfo ⟨"n", "a", "1", 0⟩))] =
      processLoop [] [] [] :=
  claim6_version_mismatch [] [] (wirePart.text "c") (wirePart.text "2")
    (wirePart.text "register") ⟨"n", "a", "1", 0⟩ [] (by decide)

/-- Claim C10: on a version mismatch the loop iteration consumes only the
identity part and the version part, so the request-kind part and the entry
part stay queued and the next iteration reads exactly those two as the
identity and version of a supposed new request. -/
theorem claim10_desync (reg : List discovery_info) (sent : List wirePart)
    (idp vp reqp ep : wirePart) (rest : List wirePart)
    (h : partAsString vp ≠ discoveryProtoVersion) :
    processLoop reg sent (idp :: vp :: reqp :: ep :: rest) =
        processLoop reg sent (reqp :: ep :: rest) ∧
      readIdVer (reqp :: ep :: rest) = some (partAsString reqp, partAsString ep) :=
  ⟨processLoop_mismatch reg sent idp vp _ h, rfl⟩

/-- Witness for C10 at concrete parts. -/
theorem claim10_desync_w :
    (processLoop [] []
        [wirePart.text "c", wirePart.text "0", wirePart.text "find", wirePart.text "e"] =
      processLoop [] [] [wirePart.text "find", wirePart.text "e"]) ∧
      readIdVer [wirePart.text "find", wirePart.text "e"] = some ("find", "e") :=
  claim10_desync [] [] (wirePart.text "c") (wirePart.text "0") (wirePart.text "find")
    (wirePart.text "e") [] (by decide)

theorem parseInfo_render (d : discovery_info)
    (h1 : d.name.data ≠ []) (hw1 : wsFree d.name = true)
    (h2 : d.addr.data ≠ []) (hw2 : wsFree d.addr = true)
    (h3 : d.version.data ≠ []) (hw3 : wsFree d.version = true) :
    parseInfo (String.mk (renderInfo d)) = d := by
  have hbang : ((fun c => !isWsChar c) ' ') = false := by decide
  have e1 : readStr ⟨renderInfo d, false⟩ =
      (d.name, ⟨' ' :: (d.addr.data ++ (' ' :: (d.version.data ++
        (' ' :: intRepr d.proto)))), false⟩) :=
    readStr_tok d.name _ h1 hw1 (headFails_cons hbang _)
  have e2 : readStr ⟨' ' :: (d.addr.data ++ (' ' :: (d.version.data ++
        (' ' :: intRepr d.proto)))), false⟩ =
      (d.addr, ⟨' ' :: (d.version.data ++ (' ' :: intRepr d.proto)), false⟩) :=
    readStr_sp_tok d.addr _ h2 hw2 (headFails_cons hbang _)
  have e3 : readStr ⟨' ' :: (d.version.data ++ (' ' :: intRepr d.proto)), false⟩ =
      (d.version, ⟨' ' :: intRepr d.proto, false⟩) :=
    readStr_sp_tok d.version _ h3 hw3 (headFails_cons hbang _)
  have e4 : readInt ⟨' ' :: intRepr d.proto, false⟩ = (d.proto, ⟨[], false⟩) := by
    rw [show ' ' :: intRepr d.proto = ' ' :: (intRepr d.proto ++ []) by simp]
    exact readInt_sp d.proto [] (headFails_nil _)
  simp only [parseInfo, data_mk, e1, e2, e3, e4]

/-- Well-formed directory entry: every string field is a nonempty
whitespace-free token, so the single-part serialization round-trips. -/
def infoWf (d : discovery_info) : Bool :=
  (!d.name.data.isEmpty) && wsFree d.name && (!d.addr.data.isEmpty) && wsFree d.addr &&
    (!d.version.data.isEmpty) && wsFree d.version

theorem isEmpty_false_ne_nil {α : Type} {l : List α} (h : l.isEmpty = false) : l ≠ [] := by
  cases l
  · simp at h
  · simp

theorem parseInfo_render_of_wf {d : discovery_info} (h : infoWf d = true) :
    parseInfo (String.mk (renderInfo d)) = d := by
  simp only [infoWf, Bool.and_eq_true, Bool.not_eq_true'] at h
  obtain ⟨⟨⟨⟨⟨hn, hwn⟩, ha⟩, hwa⟩, hv⟩, hwv⟩ := h
  exact parseInfo_render d (isEmpty_false_ne_nil hn) hwn (isEmpty_false_ne_nil ha) hwa
    (isEmpty_false_ne_nil hv) hwv

/-- Claim C7: `find` returns exactly the registered entries matching the query
on name, protocol kind and protocol version (the address is never compared:
changing the query's address changes nothing), and the reply is the identity
echo, a boolean that is true iff some entry matched, then the matches as an
array (count, elements, closing empty part). -/
theorem claim7_find (reg : List discovery_info) (q : discovery_info) (id : String)
    (hq : infoWf q = true) :
    (∀ d, d ∈ discover_servers q reg ↔
        d ∈ reg ∧ q.name = d.name ∧ q.proto = d.proto ∧ q.version = d.version) ∧
    (∀ a, discover_servers { q with addr := a } reg = discover_servers q reg) ∧
    ((!(discover_servers q reg).isEmpty) = true ↔
        ∃ d ∈ reg, q.name = d.name ∧ q.proto = d.proto ∧ q.version = d.version) ∧
    processLoop reg []
        [wirePart.text id, wirePart.text discoveryProtoVersion, wirePart.text "find",
          wirePart.text (String.mk (renderInfo q))] =
      some (reg,
        wirePart.text id ::
          wirePart.text (boolStr (!(discover_servers q reg).isEmpty)) ::
            sendArray (fun d => wirePart.text (String.mk (renderInfo d)))
              (discover_servers q reg) (discover_servers q reg).length false) := by
  have hmem : ∀ d, d ∈ discover_servers q reg ↔
      d ∈ reg ∧ q.name = d.name ∧ q.proto = d.proto ∧ q.version = d.version := by
    intro d
    simp [discover_servers, List.mem_filter, and_assoc]
  refine ⟨hmem, ?_, ?_, ?_⟩
  · intro a
    rfl
  · constructor
    · intro hne
      cases hfe : discover_servers q reg with
      | nil => rw [hfe] at hne; simp at hne
      | cons a t =>
        have ha : a ∈ discover_servers q reg := by
          rw [hfe]; exact List.mem_cons_self _ _
        obtain ⟨hin, h1, h2, h3⟩ := (hmem a).mp ha
        exact ⟨a, hin, h1, h2, h3⟩
    · rintro ⟨d, hd, h1, h2, h3⟩
      have : d ∈ discover_servers q reg := (hmem d).mpr ⟨hd, h1, h2, h3⟩
      cases hfe : discover_servers q reg with
      | nil => rw [hfe] at this; simp at this
      | cons a t => rfl
  · simp only [processLoop, partAsString,
      if_neg (show ¬("find" = "register") by decide),
      parseInfo_render_of_wf hq, List.nil_append, eq_self_iff_true]
    rw [if_pos trivial, if_pos trivial]

/-- Witness for C7: one registered entry, a query matching everything but the
address; the well-formedness hypothesis is discharged by evaluation and the
address-wildcard conjunct is instantiated. -/
theorem claim7_find_w :
    infoWf ⟨"n", "q", "1", 1⟩ = true ∧
      ∀ a, discover_servers { (⟨"n", "q", "1", 1⟩ : discovery_info) with addr := a }
          [⟨"n", "adr", "1", 1⟩] =
        discover_servers ⟨"n", "q", "1", 1⟩ [⟨"n", "adr", "1", 1⟩] :=
  ⟨by decide, (claim7_find [⟨"n", "adr", "1", 1⟩] ⟨"n", "q", "1", 1⟩ "c" (by decide)).2.1⟩

/-! ### Lemmas about the frame codec -/

theorem recvParts_exact (l r : List wirePart) : recvParts l.length (l ++ r) = some (l, r) := by
  induction l with
  | nil => rfl
  | cons p t ih =>
    simp only [List.cons_append, List.length_cons, recvParts, List.append_eq, ih]

theorem recvParts_sound :
    ∀ (n : Nat) (ps t r : List wirePart), recvParts n ps = some (t, r) → ps = t ++ r := by
  intro n
  induction n with
  | zero =>
    intro ps t r h
    simp only [recvParts, Option.some.injEq, Prod.mk.injEq] at h
    rw [← h.1, ← h.2]
    rfl
  | succ k ih =>
    intro ps t r h
    cases ps with
    | nil => simp [recvParts] at h
    | cons p ps' =>
      simp only [recvParts] at h
      cases hk : recvParts k ps' with
      | none => rw [hk] at h; simp at h
      | some tr =>
        rw [hk] at h
        obtain ⟨t', r'⟩ := tr
        simp only [Option.some.injEq, Prod.mk.injEq] at h
        have hps' := ih ps' t' r' hk
        rw [← h.1, ← h.2, hps']
        rfl

theorem fitOf_zero (me : Option Nat) : fitOf me 0 = 0 := by
  cases me with
  | none => rfl
  | some m => simp [fitOf]

theorem sendArray_full {γ : Type} (render : γ → wirePart) (c : List γ) :
    sendArray render c c.length true =
      wirePart.text (String.mk (natDigits c.length)) :: c.map render := by
  simp [sendArray]

theorem sendArray_zero {γ : Type} (render : γ → wirePart) (c : List γ) :
    sendArray render c 0 true = [wirePart.text (String.mk (natDigits 0))] := by
  simp [sendArray]

theorem partAsString_text (s : String) : partAsString (wirePart.text s) = s := rfl

theorem partAsBytes_raw (bs : List Nat) : partAsBytes (wirePart.raw bs) = bs := rfl

theorem parseHeader_render (h : image_header) (hw : wsFree h.name = true) :
    parseHeader (String.mk (renderHeader h)) = h := by
  have hd : isDigitChar ' ' = false := by decide
  have e1 : readInt ⟨renderHeader h, false⟩ =
      (h.width, ⟨' ' :: (intRepr h.height ++ (' ' :: (intRepr h.channels ++
        (' ' :: (intRepr h.bytes_per_channel ++ (' ' :: h.name.data)))))), false⟩) :=
    readInt_exact h.width _ (headFails_cons hd _)
  have e2 : readInt ⟨' ' :: (intRepr h.height ++ (' ' :: (intRepr h.channels ++
        (' ' :: (intRepr h.bytes_per_channel ++ (' ' :: h.name.data)))))), false⟩ =
      (h.height, ⟨' ' :: (intRepr h.channels ++
        (' ' :: (intRepr h.bytes_per_channel ++ (' ' :: h.name.data)))), false⟩) :=
    readInt_sp h.height _ (headFails_cons hd _)
  have e3 : readInt ⟨' ' :: (intRepr h.channels ++
        (' ' :: (intRepr h.bytes_per_channel ++ (' ' :: h.name.data)))), false⟩ =
      (h.channels, ⟨' ' :: (intRepr h.bytes_per_channel ++ (' ' :: h.name.data)), false⟩) :=
    readInt_sp h.channels _ (headFails_cons hd _)
  have e4 : readInt ⟨' ' :: (intRepr h.bytes_per_channel ++ (' ' :: h.name.data)), false⟩ =
      (h.bytes_per_channel, ⟨' ' :: h.name.data, false⟩) :=
    readInt_sp h.bytes_per_channel _ (headFails_cons hd _)
  have e5 : (readStr ⟨' ' :: h.name.data, false⟩).1 = h.name := readStr_name h.name hw
  simp only [parseHeader, data_mk, e1, e2, e3, e4, e5]

theorem ite_cond_true {α : Type} (a b : α) : (if (true = true) then a else b) = a := rfl

theorem ite_cond_false {α : Type} (a b : α) : (if (false = true) then a else b) = b := rfl

theorem recvHeaderArray_of_send (hs : List image_header) (rest : List wirePart)
    (encSkip decSkip : Bool)
    (hw : encSkip = false → decSkip = false → ∀ h ∈ hs, wsFree h.name = true) :
    recvHeaderArray (if decSkip then some 0 else none)
      (sendArray (fun h => wirePart.text (String.mk (renderHeader h))) hs
        (if encSkip then 0 else hs.length) true ++ rest)
    = some ((if encSkip || decSkip then [] else hs), true, rest) := by
  have hmap : ∀ r : List wirePart,
      recvParts hs.length
          (hs.map (fun h => wirePart.text (String.mk (renderHeader h))) ++ r) =
        some (hs.map (fun h => wirePart.text (String.mk (renderHeader h))), r) := by
    intro r
    rw [show hs.length =
        (hs.map (fun h => wirePart.text (String.mk (renderHeader h)))).length
      from (List.length_map _ _).symm]
    exact recvParts_exact _ _
  cases encSkip with
  | true =>
    simp only [ite_cond_true, eq_self_iff_true, if_true, Bool.true_or, sendArray_zero,
      List.cons_append, List.nil_append, recvHeaderArray, partAsString_text,
      parseCount_natDigits, fitOf_zero, recvParts, Nat.sub_zero, List.map_nil]
  | false =>
    simp only [ite_cond_false, Bool.false_or, sendArray_full, List.cons_append]
    cases decSkip with
    | true =>
      simp only [ite_cond_true, eq_self_iff_true, if_true, recvHeaderArray, partAsString_text,
        parseCount_natDigits, fitOf, Nat.min_zero, recvParts, Nat.sub_zero, hmap,
        List.map_nil]
    | false =>
      simp only [ite_cond_false, recvHeaderArray, partAsString_text,
        parseCount_natDigits, fitOf, hmap, Nat.sub_self, recvParts, List.map_map]
      have hcomp : hs.map ((fun p => parseHeader (partAsString p)) ∘
          (fun h => wirePart.text (String.mk (renderHeader h)))) = hs.map id := by
        apply List.map_congr_left
        intro a ha
        exact parseHeader_render a (hw rfl rfl a ha)
      rw [hcomp, List.map_id]

theorem recvDataElems_fresh (ds : List image_data) (rest : List wirePart) :
    recvDataElems (List.replicate ds.length ⟨[], false⟩)
      (ds.map (fun d => wirePart.raw d.bytes) ++ rest)
    = some (ds.map (fun d => (⟨d.bytes, false⟩ : image_data)), true, rest) := by
  induction ds with
  | nil => rfl
  | cons d t ih =>
    simp only [List.length_cons, List.replicate_succ, List.map_cons, List.cons_append,
      recvDataElems, List.append_eq, ih]
    rfl

theorem recvDataArray_of_send (ds : List image_data) (rest : List wirePart)
    (encSkip decSkip : Bool) :
    recvDataArray (if decSkip then some 0 else none) []
      (sendArray (fun d => wirePart.raw d.bytes) ds
        (if encSkip then 0 else ds.length) true ++ rest)
    = some ((if encSkip || decSkip then []
             else ds.map (fun d => (⟨d.bytes, false⟩ : image_data))), true, rest) := by
  have hmap : ∀ r : List wirePart,
      recvParts ds.length (ds.map (fun d => wirePart.raw d.bytes) ++ r) =
        some (ds.map (fun d => wirePart.raw d.bytes), r) := by
    intro r
    rw [show ds.length = (ds.map (fun d => wirePart.raw d.bytes)).length
      from (List.length_map _ _).symm]
    exact recvParts_exact _ _
  cases encSkip with
  | true =>
    simp only [ite_cond_true, eq_self_iff_true, if_true, Bool.true_or, sendArray_zero,
      List.cons_append, List.nil_append, recvDataArray, partAsString_text,
      parseCount_natDigits, fitOf_zero, List.take_nil, List.replicate, List.nil_append,
      recvDataElems, recvParts, Nat.sub_zero]
  | false =>
    simp only [ite_cond_false, Bool.false_or, sendArray_full, List.cons_append]
    cases decSkip with
    | true =>
      simp only [ite_cond_true, eq_self_iff_true, if_true, recvDataArray,
        partAsString_text, parseCount_natDigits, fitOf, Nat.min_zero, List.take_nil,
        List.replicate, List.nil_append, recvDataElems, Nat.sub_zero, hmap, recvParts]
    | false =>
      simp only [ite_cond_false, recvDataArray, partAsString_text,
        parseCount_natDigits, fitOf, List.take_nil, List.length_nil, Nat.sub_zero,
        List.nil_append, recvDataElems_fresh, Nat.sub_self, recvParts]

theorem recvFrame_sendFrame (oe od : frame_options) (f : frame) (extra : List wirePart)
    (hw : oe.skip_headers = false → od.skip_headers = false →
      ∀ h ∈ f.headers, wsFree h.name = true) :
    recvFrame od frame0 (sendFrame oe f ++ extra) =
      some (⟨(if oe.skip_headers || od.skip_headers then [] else f.headers),
             (if oe.skip_data || od.skip_data then []
              else f.data.map (fun d => (⟨d.bytes, false⟩ : image_data))),
             (if od.skip_user_data then ""
              else if oe.skip_user_data then "" else f.user_data)⟩,
        true, extra) := by
  have hsend : sendFrame oe f ++ extra =
      (if oe.skip_user_data then wirePart.text "" else wirePart.text f.user_data) ::
        (sendArray (fun h => wirePart.text (String.mk (renderHeader h))) f.headers
            (if oe.skip_headers then 0 else f.headers.length) true ++
          (sendArray (fun d => wirePart.raw d.bytes) f.data
              (if oe.skip_data then 0 else f.data.length) true ++
            (wirePart.text "" :: extra))) := by
    simp [sendFrame, List.append_assoc]
  rw [hsend]
  have hbody : recvFrameBody od frame0
      ((if oe.skip_user_data then wirePart.text "" else wirePart.text f.user_data) ::
        (sendArray (fun h => wirePart.text (String.mk (renderHeader h))) f.headers
            (if oe.skip_headers then 0 else f.headers.length) true ++
          (sendArray (fun d => wirePart.raw d.bytes) f.data
              (if oe.skip_data then 0 else f.data.length) true ++
            (wirePart.text "" :: extra)))) =
      some (⟨(if oe.skip_headers || od.skip_headers then [] else f.headers),
             (if oe.skip_data || od.skip_data then []
              else f.data.map (fun d => (⟨d.bytes, false⟩ : image_data))),
             (if od.skip_user_data then ""
              else if oe.skip_user_data then "" else f.user_data)⟩,
        true, wirePart.text "" :: extra) := by
    have hh := recvHeaderArray_of_send f.headers
      (sendArray (fun d => wirePart.raw d.bytes) f.data
          (if oe.skip_data then 0 else f.data.length) true ++
        (wirePart.text "" :: extra)) oe.skip_headers od.skip_headers hw
    have hd := recvDataArray_of_send f.data (wirePart.text "" :: extra)
      oe.skip_data od.skip_data
    simp only [recvFrameBody, frame0, hh, hd]
    simp [apply_ite partAsString, partAsString_text]
  simp only [recvFrame, hbody]

/-- Counterexample to claim C2 as stated: a descriptor name containing a space
does not survive the round trip — `istream >> string` reads a single token, so
the decoded name is only the part before the space.  Decode still reports
success and stays at the stream boundary, but the frame is not byte-identical. -/
theorem claim2_ce :
    recvFrame defaultOpts frame0 (sendFrame defaultOpts ⟨[⟨2, 3, 1, 1, "a b"⟩], [], ""⟩) =
      some (⟨[⟨2, 3, 1, 1, "a"⟩], [], ""⟩, true, []) ∧
    (⟨[⟨2, 3, 1, 1, "a"⟩], [], ""⟩ : frame) ≠ ⟨[⟨2, 3, 1, 1, "a b"⟩], [], ""⟩ := by
  decide

/-- Claim C2, amended: for every frame whose descriptor names contain no
whitespace characters, encoding with default options and decoding with default
options into a fresh frame reproduces byte-identical descriptors, buffer
contents and user data, with the decode succeeding and ending at the stream
boundary. -/
theorem claim2_roundtrip (f : frame) (hw : ∀ h ∈ f.headers, wsFree h.name = true) :
    ∃ g, recvFrame defaultOpts frame0 (sendFrame defaultOpts f) = some (g, true, []) ∧
      g.headers = f.headers ∧
      g.data.map image_data.bytes = f.data.map image_data.bytes ∧
      g.user_data = f.user_data := by
  have h := recvFrame_sendFrame defaultOpts defaultOpts f [] (fun _ _ => hw)
  rw [List.append_nil] at h
  refine ⟨_, h, ?_, ?_, ?_⟩
  · rfl
  · show ((f.data.map (fun d => (⟨d.bytes, false⟩ : image_data))).map image_data.bytes)
      = f.data.map image_data.bytes
    rw [List.map_map]
    rfl
  · rfl

/-- Witness for the amended C2 on a concrete frame with one descriptor, one
buffer and user data containing a space. -/
theorem claim2_roundtrip_w :
    ∃ g, recvFrame defaultOpts frame0
        (sendFrame defaultOpts ⟨[⟨2, 3, 1, 1, "ab"⟩], [⟨[7, 8], false⟩], "u d"⟩) =
      some (g, true, []) ∧
      g.headers = [⟨2, 3, 1, 1, "ab"⟩] ∧
      g.data.map image_data.bytes = [⟨[7, 8], false⟩].map image_data.bytes ∧
      g.user_data = "u d" :=
  claim2_roundtrip ⟨[⟨2, 3, 1, 1, "ab"⟩], [⟨[7, 8], false⟩], "u d"⟩ (by decide)

/-- Claim C3: a pre-allocated (borrowed) receive destination of capacity `C`
facing a payload of size `S` gets exactly the first `C` payload bytes and a
failure result when `C < S`, and a success result when `S <= C`. -/
theorem claim3_truncation (v : image_data) (p : wirePart) (hpre : v.pre_allocated = true) :
    (v.bytes.length < (partAsBytes p).length →
      recvData v p = (⟨(partAsBytes p).take v.bytes.length, true⟩, false)) ∧
    ((partAsBytes p).length ≤ v.bytes.length → (recvData v p).2 = true) := by
  constructor
  · intro hlt
    simp only [recvData, if_pos hpre]
    rw [Nat.min_eq_right (Nat.le_of_lt hlt), List.drop_length, List.append_nil]
    rw [decide_eq_false (by omega)]
  · intro hle
    simp only [recvData, if_pos hpre]
    rw [decide_eq_true hle]

/-- Witness for C3: capacity 2, payload 3 bytes — truncated write and failure;
the success half is witnessed vacuously sound at the same input. -/
theorem claim3_truncation_w :
    (⟨[0, 0], true⟩ : image_data).pre_allocated = true ∧
    (((⟨[0, 0], true⟩ : image_data).bytes.length <
        (partAsBytes (wirePart.raw [1, 2, 3])).length →
      recvData ⟨[0, 0], true⟩ (wirePart.raw [1, 2, 3]) =
        (⟨(partAsBytes (wirePart.raw [1, 2, 3])).take
            (⟨[0, 0], true⟩ : image_data).bytes.length, true⟩, false)) ∧
     ((partAsBytes (wirePart.raw [1, 2, 3])).length ≤
        (⟨[0, 0], true⟩ : image_data).bytes.length →
      (recvData ⟨[0, 0], true⟩ (wirePart.raw [1, 2, 3])).2 = true)) :=
  ⟨by decide, claim3_truncation ⟨[0, 0], true⟩ (wirePart.raw [1, 2, 3]) (by decide)⟩

/-- Counterexample to claim C5 as stated: with `skip_user_data = true` and a
descriptor name containing a space, the non-skipped descriptor section is not
reproduced with its transmitted values (the name is cut at the space). -/
theorem claim5_ce :
    recvFrame ⟨false, false, true⟩ frame0
        (sendFrame ⟨false, false, true⟩ ⟨[⟨1, 1, 1, 1, "x y"⟩], [], "ud"⟩) =
      some (⟨[⟨1, 1, 1, 1, "x"⟩], [], ""⟩, true, []) ∧
    ([(⟨1, 1, 1, 1, "x"⟩ : image_header)] : List image_header) ≠ [⟨1, 1, 1, 1, "x y"⟩] := by
  decide

/-- Claim C5, amended: for every subset of the three skip options applied to
both encode and decode, and every frame whose descriptor names are
whitespace-free whenever descriptors are not skipped, decoding into a fresh
frame yields the default value for exactly the skipped sections and the
transmitted values for the rest, succeeds, and leaves the stream at the frame
boundary (any following parts are untouched). -/
theorem claim5_skip_options (o : frame_options) (f : frame) (extra : List wirePart)
    (hw : o.skip_headers = false → ∀ h ∈ f.headers, wsFree h.name = true) :
    recvFrame o frame0 (sendFrame o f ++ extra) =
      some (⟨(if o.skip_headers then [] else f.headers),
             (if o.skip_data then []
              else f.data.map (fun d => (⟨d.bytes, false⟩ : image_data))),
             (if o.skip_user_data then "" else f.user_data)⟩,
        true, extra) := by
  obtain ⟨sh, sd, su⟩ := o
  have h := recvFrame_sendFrame ⟨sh, sd, su⟩ ⟨sh, sd, su⟩ f extra (fun h1 _ => hw h1)
  cases sh <;> cases sd <;> cases su <;> simpa using h

/-- Witness for the amended C5: skip data and user data, keep descriptors, with
trailing parts after the frame. -/
theorem claim5_skip_options_w :
    recvFrame ⟨false, true, true⟩ frame0
        (sendFrame ⟨false, true, true⟩ ⟨[⟨4, 5, 6, 7, "nm"⟩], [⟨[1, 2], false⟩], "uu"⟩ ++
          [wirePart.text "k"]) =
      some (⟨[⟨4, 5, 6, 7, "nm"⟩], [], ""⟩, true, [wirePart.text "k"]) := by
  rw [claim5_skip_options ⟨false, true, true⟩ ⟨[⟨4, 5, 6, 7, "nm"⟩], [⟨[1, 2], false⟩], "uu"⟩
    [wirePart.text "k"] (fun _ => by decide)]
  rfl

/-! ### Consumption lemmas: decode reads forward, never retries -/

theorem recvHeaderArray_consumed {me : Option Nat} {ps : List wirePart}
    {hs : List image_header} {ok : Bool} {rest : List wirePart}
    (h : recvHeaderArray me ps = some (hs, ok, rest)) : ∃ pre, ps = pre ++ rest := by
  cases ps with
  | nil => simp [recvHeaderArray] at h
  | cons cp r0 =>
    simp only [recvHeaderArray] at h
    cases h1 : recvParts (fitOf me (parseCount (partAsString cp))) r0 with
    | none => rw [h1] at h; simp at h
    | some er =>
      obtain ⟨eps, r2⟩ := er
      simp only [h1] at h
      cases h2 : recvParts (parseCount (partAsString cp) -
          fitOf me (parseCount (partAsString cp))) r2 with
      | none => rw [h2] at h; simp at h
      | some dr =>
        obtain ⟨t2, r3⟩ := dr
        rw [h2] at h
        simp only [Option.some.injEq, Prod.mk.injEq] at h
        refine ⟨cp :: (eps ++ t2), ?_⟩
        rw [recvParts_sound _ _ _ _ h1, recvParts_sound _ _ _ _ h2, ← h.2.2]
        simp

theorem recvDataElems_consumed :
    ∀ (des : List image_data) (ps : List wirePart) (res : List image_data)
      (ok : Bool) (rest : List wirePart),
      recvDataElems des ps = some (res, ok, rest) → ∃ pre, ps = pre ++ rest := by
  intro des
  induction des with
  | nil =>
    intro ps res ok rest h
    simp only [recvDataElems, Option.some.injEq, Prod.mk.injEq] at h
    exact ⟨[], by rw [← h.2.2]; rfl⟩
  | cons d ds ih =>
    intro ps res ok rest h
    cases ps with
    | nil => simp [recvDataElems] at h
    | cons p ps' =>
      simp only [recvDataElems] at h
      cases h1 : recvDataElems ds ps' with
      | none => rw [h1] at h; simp at h
      | some rr =>
        obtain ⟨res', ok2, rest'⟩ := rr
        rw [h1] at h
        simp only [Option.some.injEq, Prod.mk.injEq] at h
        obtain ⟨pre, hpre⟩ := ih ps' res' ok2 rest' h1
        refine ⟨p :: pre, ?_⟩
        rw [hpre, ← h.2.2]
        rfl

theorem recvDataArray_consumed {me : Option Nat} {dest : List image_data}
    {ps : List wirePart} {res : List image_data} {ok : Bool} {rest : List wirePart}
    (h : recvDataArray me dest ps = some (res, ok, rest)) : ∃ pre, ps = pre ++ rest := by
  cases ps with
  | nil => simp [recvDataArray] at h
  | cons cp r0 =>
    simp only [recvDataArray] at h
    cases h1 : recvDataElems (dest.take (fitOf me (parseCount (partAsString cp))) ++
        List.replicate (fitOf me (parseCount (partAsString cp)) - dest.length)
          ⟨[], false⟩) r0 with
    | none => rw [h1] at h; simp at h
    | some rr =>
      obtain ⟨res', ok', r2⟩ := rr
      simp only [h1] at h
      cases h2 : recvParts (parseCount (partAsString cp) -
          fitOf me (parseCount (partAsString cp))) r2 with
      | none => rw [h2] at h; simp at h
      | some dr =>
        obtain ⟨t2, r3⟩ := dr
        rw [h2] at h
        simp only [Option.some.injEq, Prod.mk.injEq] at h
        obtain ⟨pre1, hpre1⟩ := recvDataElems_consumed _ _ _ _ _ h1
        refine ⟨cp :: (pre1 ++ t2), ?_⟩
        rw [hpre1, recvParts_sound _ _ _ _ h2, ← h.2.2]
        simp

theorem recvFrameBody_consumed {o : frame_options} {f : frame} {ps : List wirePart}
    {g : frame} {ok : Bool} {rest : List wirePart}
    (h : recvFrameBody o f ps = some (g, ok, rest)) : ∃ pre, ps = pre ++ rest := by
  cases ps with
  | nil => simp [recvFrameBody] at h
  | cons udp ps1 =>
    simp only [recvFrameBody] at h
    cases h1 : recvHeaderArray (if o.skip_headers then some 0 else none) ps1 with
    | none => rw [h1] at h; simp at h
    | some hr =>
      obtain ⟨hs, okh, ps2⟩ := hr
      simp only [h1] at h
      cases h2 : recvDataArray (if o.skip_data then some 0 else none) f.data ps2 with
      | none => rw [h2] at h; simp at h
      | some dr =>
        obtain ⟨ds, okd, ps3⟩ := dr
        rw [h2] at h
        simp only [Option.some.injEq, Prod.mk.injEq] at h
        obtain ⟨p1, hp1⟩ := recvHeaderArray_consumed h1
        obtain ⟨p2, hp2⟩ := recvDataArray_consumed h2
        refine ⟨udp :: (p1 ++ p2), ?_⟩
        rw [hp1, hp2, ← h.2.2]
        simp

/-- Counterexample to claim C8 as stated: the per-part receives inside the
decode are plain blocking `recv` calls with no timeout, so a short part
sequence (here a single part) leaves the decode blocked — modelled as `none` —
instead of making it return failure at the end of a timeout. -/
theorem claim8_ce :
    recvFrame defaultOpts frame0 [wirePart.text "x"] = none := by
  decide

/-- Claim C8, amended: every decode that returns consumed its parts linearly
(the remaining stream is a suffix reached without re-reading any part, i.e. no
internal retry), and a decode facing an exhausted stream blocks — modelled as
`none` — rather than returning failure; the only timeout in the receive path
is the readiness poll taken before the decode starts. -/
theorem claim8_decode :
    (∀ (o : frame_options) (f : frame) (ps : List wirePart) (g : frame) (ok : Bool)
        (rem : List wirePart), recvFrame o f ps = some (g, ok, rem) →
        ∃ used, ps = used ++ rem) ∧
    (∀ (o : frame_options) (f : frame), recvFrame o f ([] : List wirePart) = none) := by
  constructor
  · intro o f ps g ok rem h
    unfold recvFrame at h
    cases hb : recvFrameBody o f ps with
    | none => rw [hb] at h; simp at h
    | some br =>
      obtain ⟨g', ok', rest⟩ := br
      simp only [hb] at h
      cases rest with
      | nil => simp at h
      | cons p rest' =>
        simp only [Option.some.injEq, Prod.mk.injEq] at h
        obtain ⟨pre, hpre⟩ := recvFrameBody_consumed hb
        refine ⟨pre ++ [p], ?_⟩
        rw [hpre, ← h.2.2]
        simp
  · intro o f
    rfl

/-- Witness for the amended C8: a complete four-part frame is consumed in full,
and the empty stream blocks. -/
theorem claim8_decode_w :
    (∃ used, ([wirePart.text "", wirePart.text "0", wirePart.text "0",
        wirePart.text ""] : List wirePart) = used ++ []) ∧
    recvFrame defaultOpts frame0 ([] : List wirePart) = none :=
  ⟨claim8_decode.1 defaultOpts frame0 _ frame0 true [] (by decide),
    claim8_decode.2 defaultOpts frame0⟩

/-- Counterexample to claim C9 as stated: when the end-marker part is absent,
the decode does not return a success-or-failure result at all — the body
phases all succeed on this three-part sequence, yet the trailing blocking
receive leaves the decode stuck (`none`). -/
theorem claim9_ce :
    recvFrameBody defaultOpts frame0
        [wirePart.text "", wirePart.text "0", wirePart.text "0"] =
      some (frame0, true, []) ∧
    recvFrame defaultOpts frame0
        [wirePart.text "", wirePart.text "0", wirePart.text "0"] = none := by
  decide

/-- Claim C9, amended: the end-marker receive result is discarded — whenever a
trailing part is present, whatever its content, the decode returns exactly the
success flag and frame computed by the user-data, descriptor-array and
buffer-array phases; but when the trailing part is absent the decode blocks
(returns nothing) instead of returning that result. -/
theorem claim9_delimiter :
    (∀ (o : frame_options) (f : frame) (ps : List wirePart) (g : frame) (ok : Bool)
        (p : wirePart) (rest : List wirePart),
        recvFrameBody o f ps = some (g, ok, p :: rest) →
        recvFrame o f ps = some (g, ok, rest)) ∧
    (∀ (o : frame_options) (f : frame) (ps : List wirePart) (g : frame) (ok : Bool),
        recvFrameBody o f ps = some (g, ok, []) → recvFrame o f ps = none) := by
  constructor
  · intro o f ps g ok p rest h
    unfold recvFrame
    rw [h]
  · intro o f ps g ok h
    unfold recvFrame
    rw [h]

/-- Witness for the amended C9: the trailing part carries junk content `"zz"`
and is still drained with the result unchanged. -/
theorem claim9_delimiter_w :
    recvFrame defaultOpts frame0
        [wirePart.text "u", wirePart.text "0", wirePart.text "0", wirePart.text "zz"] =
      some (⟨[], [], "u"⟩, true, []) :=
  claim9_delimiter.1 defaultOpts frame0 _ ⟨[], [], "u"⟩ true (wirePart.text "zz") []
    (by decide)

end ImageBabble
